import Mathlib

/-!
Verification of the geometric resize/pad transform in `src/dataset/dent.py`
(`CocoDataset.resize_image`, `CocoDataset.resize_mask`, and the label-map
construction in `CocoDataset.__getitem__`).

Python floats are modelled by `ℚ`; Python `round` (banker's rounding,
ties-to-even) by `pyRound`; Python `None`/truthiness of optional arguments by
`Option` with `pyTruthyN`/`pyTruthyQ`; Python exceptions by `Except String`.
-/

/-- Python 3 `round` on a real number: nearest integer, ties to even. -/
def pyRound (q : ℚ) : ℤ :=
  if q - ⌊q⌋ < 1/2 then ⌊q⌋
  else if 1/2 < q - ⌊q⌋ then ⌊q⌋ + 1
  else if ⌊q⌋ % 2 = 0 then ⌊q⌋ else ⌊q⌋ + 1

theorem floor_le_pyRound (q : ℚ) : ⌊q⌋ ≤ pyRound q := by
  unfold pyRound
  split_ifs <;> omega

theorem pyRound_le_floor_add_one (q : ℚ) : pyRound q ≤ ⌊q⌋ + 1 := by
  unfold pyRound
  split_ifs <;> omega

theorem pyRound_intCast (n : ℤ) : pyRound (n : ℚ) = n := by
  unfold pyRound
  rw [Int.floor_intCast]
  norm_num

theorem pyRound_natCast (n : ℕ) : pyRound (n : ℚ) = n := by
  exact_mod_cast pyRound_intCast (n : ℤ)

theorem le_pyRound_of_le {n : ℤ} {q : ℚ} (h : (n : ℚ) ≤ q) : n ≤ pyRound q := by
  have := floor_le_pyRound q
  have := Int.le_floor.mpr h
  omega

theorem pyRound_le_of_le {n : ℤ} {q : ℚ} (h : q ≤ (n : ℚ)) : pyRound q ≤ n := by
  have hfl : ⌊q⌋ ≤ n := by
    have := Int.floor_le_floor h
    simpa using this
  rcases lt_or_eq_of_le hfl with hlt | heq
  · have := pyRound_le_floor_add_one q
    omega
  · have hq : q - ⌊q⌋ ≤ 0 := by
      have : (⌊q⌋ : ℚ) = (n : ℚ) := by exact_mod_cast heq
      have hqn : q ≤ (⌊q⌋ : ℚ) := by rw [this]; exact h
      linarith
    unfold pyRound
    rw [if_pos (by linarith)]
    omega

theorem pyRound_mono {q r : ℚ} (h : q ≤ r) : pyRound q ≤ pyRound r := by
  have hfl : ⌊q⌋ ≤ ⌊r⌋ := Int.floor_le_floor h
  rcases lt_or_eq_of_le hfl with hlt | heq
  · have h1 := pyRound_le_floor_add_one q
    have h2 := floor_le_pyRound r
    omega
  · have hcast : (⌊q⌋ : ℚ) = (⌊r⌋ : ℚ) := by exact_mod_cast heq
    have hfr : q - ⌊q⌋ ≤ r - ⌊r⌋ := by rw [hcast]; linarith
    unfold pyRound
    split_ifs <;> first
      | omega
      | (exfalso; omega)
      | (exfalso; linarith)

theorem pyRound_nonneg {q : ℚ} (h : 0 ≤ q) : 0 ≤ pyRound q :=
  le_pyRound_of_le (by exact_mod_cast h)

/-- Python truthiness of an optional integer argument: `None` and `0` are falsy. -/
abbrev pyTruthyN (o : Option ℕ) : Prop := o.getD 0 ≠ 0

/-- Python truthiness of an optional float argument: `None` and `0.0` are falsy. -/
abbrev pyTruthyQ (o : Option ℚ) : Prop := o.getD 0 ≠ 0

/-- A numpy image array: spatial shape plus element type (channels are never
touched by the resize geometry, so they are not tracked). -/
structure NpImage where
  hgt : ℕ
  wid : ℕ
  dtype : String
deriving DecidableEq, Repr

/-- A 2-D numpy mask array: spatial shape only. -/
structure NpMask where
  hgt : ℕ
  wid : ℕ
deriving DecidableEq, Repr

/-- The tuple returned by `CocoDataset.resize_image` (dent.py line 193):
`(image, window, scale, padding, crop)`. -/
structure ResizeOut where
  image : NpImage
  window : ℤ × ℤ × ℤ × ℤ
  scale : ℚ
  padding : List (ℤ × ℤ)
  crop : Option (ℤ × ℤ × ℕ × ℕ)
deriving DecidableEq, Repr

/-- `random.randint(a, b)`: uniform integer in `[a, b]` inclusive; raises
`ValueError` when the range is empty.  The random source is modelled by a
natural-number oracle `r`; every value the source can return is `a + r % (b - a + 1)`
for some `r`, and every such value is in `[a, b]`. -/
def randint (a b : ℤ) (r : ℕ) : Except String ℤ :=
  if b < a then .error "ValueError: empty range for randrange"
  else .ok (a + (r : ℤ) % (b - a + 1))

/-- Length of the numpy basic slice `arr[start : start + count]` of an axis of
length `len` (non-negative start; numpy clips out-of-range bounds). -/
def sliceLen (len start count : ℕ) : ℕ := min len (start + count) - min len start

/-- `np.pad(image, [(tb.1, tb.2), (lr.1, lr.2), (0, 0)], mode="constant")`:
raises on negative pad amounts, otherwise grows each spatial axis and keeps the
element type. -/
def npPad (img : NpImage) (tb lr : ℤ × ℤ) : Except String NpImage :=
  if tb.1 < 0 ∨ tb.2 < 0 ∨ lr.1 < 0 ∨ lr.2 < 0 then
    .error "ValueError: negative padding"
  else
    .ok ⟨img.hgt + tb.1.toNat + tb.2.toNat, img.wid + lr.1.toNat + lr.2.toNat, img.dtype⟩

/-- `np.pad(mask, [(tb.1, tb.2), (lr.1, lr.2)], mode="constant")` on a 2-D mask. -/
def npPadMask (m : NpMask) (tb lr : ℤ × ℤ) : Except String NpMask :=
  if tb.1 < 0 ∨ tb.2 < 0 ∨ lr.1 < 0 ∨ lr.2 < 0 then
    .error "ValueError: negative padding"
  else
    .ok ⟨m.hgt + tb.1.toNat + tb.2.toNat, m.wid + lr.1.toNat + lr.2.toNat⟩

/-- The first scale assignment of `resize_image` (dent.py lines 134-136):
`scale = max(1, min_dim / min(h, w))` when `min_dim` is truthy, else 1. -/
def scale1 (h w : ℕ) (min_dim : Option ℕ) : ℚ :=
  if pyTruthyN min_dim then max 1 ((min_dim.getD 0 : ℚ) / (min h w : ℚ)) else 1

/-- The scale after the `min_scale` floor (dent.py lines 137-138). -/
def scale2 (h w : ℕ) (min_dim : Option ℕ) (min_scale : Option ℚ) : ℚ :=
  if pyTruthyQ min_scale ∧ scale1 h w min_dim < min_scale.getD 0 then min_scale.getD 0
  else scale1 h w min_dim

/-- The complete scale computation of `resize_image` (dent.py lines 133-144).
Python raises `ZeroDivisionError` at `min_dim / min(h, w)` on a zero-area
image; in square mode with truthy `max_dim`, the scale is replaced by
`max_dim / max(h, w)` when `round(max(h, w) * scale)` exceeds `max_dim`. -/
def computeScale (h w : ℕ) (min_dim max_dim : Option ℕ) (min_scale : Option ℚ)
    (mode : String) : Except String ℚ :=
  if pyTruthyN min_dim ∧ min h w = 0 then .error "ZeroDivisionError: division by zero"
  else if pyTruthyN max_dim ∧ mode = "square" ∧
          pyRound ((max h w : ℚ) * scale2 h w min_dim min_scale) > (max_dim.getD 0 : ℤ)
  then .ok ((max_dim.getD 0 : ℚ) / (max h w : ℚ))
  else .ok (scale2 h w min_dim min_scale)

/-- The interpolation step of `resize_image` (dent.py lines 147-149): when
`scale != 1`, skimage resizes to `(round(h * scale), round(w * scale))` and
returns a floating-point array; otherwise the image is untouched. -/
def resizedImage (img : NpImage) (scale : ℚ) : NpImage :=
  if scale ≠ 1 then
    ⟨(pyRound ((img.hgt : ℚ) * scale)).toNat, (pyRound ((img.wid : ℚ) * scale)).toNat, "float64"⟩
  else img

/-- The per-axis pad amounts of pad64 mode (dent.py lines 166-179): pad up to
the next multiple of 64 when the axis is not already one, split before/after. -/
def pad64Pads (d : ℕ) : ℤ × ℤ :=
  if d % 64 > 0 then
    (((d - d % 64 + 64 : ℕ) - d : ℤ) / 2,
     ((d - d % 64 + 64 : ℕ) - d : ℤ) - ((d - d % 64 + 64 : ℕ) - d : ℤ) / 2)
  else (0, 0)

/-- Spatial size of an axis of length `d` after applying `pad64Pads d`. -/
def padDim (d : ℕ) : ℕ := d + (pad64Pads d).1.toNat + (pad64Pads d).2.toNat

/-- The square-mode finishing step (dent.py lines 152-161): center-pad the
scaled image with zeros to `max_dim x max_dim`.  With `max_dim = None`, Python
raises a `TypeError` at `(max_dim - h) // 2`. -/
def squareFinish (image : NpImage) (max_dim : Option ℕ) (scale : ℚ)
    (dtype : String) : Except String ResizeOut :=
  match max_dim with
  | none => .error "TypeError: unsupported operand type for NoneType"
  | some md =>
    match npPad image
        (((md : ℤ) - image.hgt) / 2,
         (md : ℤ) - image.hgt - ((md : ℤ) - image.hgt) / 2)
        (((md : ℤ) - image.wid) / 2,
         (md : ℤ) - image.wid - ((md : ℤ) - image.wid) / 2) with
    | .error e => .error e
    | .ok padded =>
      .ok ⟨{ padded with dtype := dtype },
           (((md : ℤ) - image.hgt) / 2, ((md : ℤ) - image.wid) / 2,
            (image.hgt : ℤ) + ((md : ℤ) - image.hgt) / 2,
            (image.wid : ℤ) + ((md : ℤ) - image.wid) / 2),
           scale,
           [(((md : ℤ) - image.hgt) / 2,
             (md : ℤ) - image.hgt - ((md : ℤ) - image.hgt) / 2),
            (((md : ℤ) - image.wid) / 2,
             (md : ℤ) - image.wid - ((md : ℤ) - image.wid) / 2),
            (0, 0)],
           none⟩

/-- The pad64-mode finishing step (dent.py lines 162-182): assert `min_dim` is
a multiple of 64 (a `TypeError` with `min_dim = None`), then pad each axis up to
the next multiple of 64. -/
def pad64Finish (image : NpImage) (min_dim : Option ℕ) (scale : ℚ)
    (dtype : String) : Except String ResizeOut :=
  match min_dim with
  | none => .error "TypeError: unsupported operand type for NoneType"
  | some md =>
    if md % 64 ≠ 0 then .error "AssertionError: Minimum dimension must be a multiple of 64"
    else
      match npPad image (pad64Pads image.hgt) (pad64Pads image.wid) with
      | .error e => .error e
      | .ok padded =>
        .ok ⟨{ padded with dtype := dtype },
             ((pad64Pads image.hgt).1, (pad64Pads image.wid).1,
              (image.hgt : ℤ) + (pad64Pads image.hgt).1,
              (image.wid : ℤ) + (pad64Pads image.wid).1),
             scale,
             [pad64Pads image.hgt, pad64Pads image.wid, (0, 0)],
             none⟩

/-- The crop-mode finishing step (dent.py lines 183-190): pick a random
top-left corner with `random.randint`, record the crop, and slice the image.
With `min_dim = None`, Python raises a `TypeError` at `h - min_dim`. -/
def cropFinish (image : NpImage) (min_dim : Option ℕ) (scale : ℚ)
    (dtype : String) (ry rx : ℕ) : Except String ResizeOut :=
  match min_dim with
  | none => .error "TypeError: unsupported operand type for NoneType"
  | some md =>
    match randint 0 ((image.hgt : ℤ) - md) ry with
    | .error e => .error e
    | .ok y =>
      match randint 0 ((image.wid : ℤ) - md) rx with
      | .error e => .error e
      | .ok x =>
        .ok ⟨⟨sliceLen image.hgt y.toNat md, sliceLen image.wid x.toNat md, dtype⟩,
             (0, 0, (md : ℤ), (md : ℤ)),
             scale,
             [(0, 0), (0, 0), (0, 0)],
             some (y, x, md, md)⟩

/-- `CocoDataset.resize_image` (dent.py lines 88-193).  `ry`, `rx` are the
random-source oracles consumed by crop mode; the returned image is cast back to
the input element type (`image.astype(image_dtype)`, line 193). -/
def resize_image (img : NpImage) (min_dim max_dim : Option ℕ)
    (min_scale : Option ℚ) (mode : String) (ry rx : ℕ) : Except String ResizeOut :=
  if mode = "none" then
    .ok ⟨img, (0, 0, (img.hgt : ℤ), (img.wid : ℤ)), 1, [(0, 0), (0, 0), (0, 0)], none⟩
  else
    match computeScale img.hgt img.wid min_dim max_dim min_scale mode with
    | .error e => .error e
    | .ok scale =>
      if mode = "square" then squareFinish (resizedImage img scale) max_dim scale img.dtype
      else if mode = "pad64" then pad64Finish (resizedImage img scale) min_dim scale img.dtype
      else if mode = "crop" then cropFinish (resizedImage img scale) min_dim scale img.dtype ry rx
      else .error (String.append "Mode not supported: " mode)

/-- `scipy.ndimage.zoom(mask, zoom=[scale, scale], order=0)`: the output shape
is `round(shape * zoom)` per axis. -/
def scipyZoom (m : NpMask) (scale : ℚ) : NpMask :=
  ⟨(pyRound ((m.hgt : ℚ) * scale)).toNat, (pyRound ((m.wid : ℚ) * scale)).toNat⟩

/-- `CocoDataset.resize_mask` (dent.py lines 196-216).  Returns the resized
mask together with the caller's padding list as it stands after the call:
`padding.pop(2)` (line 214) mutates that list in place before `np.pad` uses it
(an `IndexError` when the list is shorter than 3). -/
def resize_mask (mask : NpMask) (scale : ℚ) (padding : List (ℤ × ℤ))
    (crop : Option (ℤ × ℤ × ℕ × ℕ)) : Except String (NpMask × List (ℤ × ℤ)) :=
  let zoomed := scipyZoom mask scale
  match crop with
  | some (y, x, ch, cw) =>
    .ok (⟨sliceLen zoomed.hgt y.toNat ch, sliceLen zoomed.wid x.toNat cw⟩, padding)
  | none =>
    if padding.length < 3 then .error "IndexError: pop index out of range"
    else
      match padding.eraseIdx 2 with
      | [tb, lr] =>
        match npPadMask zoomed tb lr with
        | .error e => .error e
        | .ok m => .ok (m, [tb, lr])
      | _ => .error "ValueError: padding does not match array dimensions"

/-- One COCO annotation as consumed by `__getitem__` (dent.py lines 71-75):
`coco.annToMask(ann)` as a 0/1 indicator per pixel, plus the category id. -/
structure Ann where
  m : ℕ → ℕ → Bool
  category_id : ℕ

/-- The label written for one annotation (dent.py lines 72-75):
`ann["category_id"]` in test mode, `step + 1` in training mode. -/
def annLabel (test : Bool) (step : ℕ) (a : Ann) : ℕ :=
  if test then a.category_id else step + 1

/-- The label-map accumulation loop of `__getitem__` (dent.py lines 70-75):
`mask = np.maximum(mask, annToMask(ann) * label)` over all annotations,
starting from `np.zeros`, evaluated at pixel `(i, j)`. -/
def buildMask (test : Bool) (step : ℕ) (anns : List Ann) (i j : ℕ) : ℕ :=
  anns.foldl (fun acc a => max acc ((if a.m i j then 1 else 0) * annLabel test step a)) 0

/-! ### Helper lemmas about the embedded operations -/

theorem resizedImage_hgt (img : NpImage) (s : ℚ) :
    (resizedImage img s).hgt = (pyRound ((img.hgt : ℚ) * s)).toNat := by
  unfold resizedImage
  split_ifs with h
  · rfl
  · push_neg at h
    rw [h, mul_one, pyRound_natCast, Int.toNat_natCast]

theorem resizedImage_wid (img : NpImage) (s : ℚ) :
    (resizedImage img s).wid = (pyRound ((img.wid : ℚ) * s)).toNat := by
  unfold resizedImage
  split_ifs with h
  · rfl
  · push_neg at h
    rw [h, mul_one, pyRound_natCast, Int.toNat_natCast]

theorem npPad_ok {img : NpImage} {tb lr : ℤ × ℤ} {padded : NpImage}
    (h : npPad img tb lr = .ok padded) :
    0 ≤ tb.1 ∧ 0 ≤ tb.2 ∧ 0 ≤ lr.1 ∧ 0 ≤ lr.2 ∧
    padded = ⟨img.hgt + tb.1.toNat + tb.2.toNat, img.wid + lr.1.toNat + lr.2.toNat, img.dtype⟩ := by
  unfold npPad at h
  by_cases hneg : tb.1 < 0 ∨ tb.2 < 0 ∨ lr.1 < 0 ∨ lr.2 < 0
  · rw [if_pos hneg] at h
    exact absurd h (by simp)
  · rw [if_neg hneg] at h
    push_neg at hneg
    obtain ⟨h1, h2, h3, h4⟩ := hneg
    refine ⟨h1, h2, h3, h4, ?_⟩
    injection h with h
    exact h.symm

theorem npPad_ok_of_nonneg {tb lr : ℤ × ℤ} (img : NpImage)
    (h1 : 0 ≤ tb.1) (h2 : 0 ≤ tb.2) (h3 : 0 ≤ lr.1) (h4 : 0 ≤ lr.2) :
    npPad img tb lr =
      .ok ⟨img.hgt + tb.1.toNat + tb.2.toNat, img.wid + lr.1.toNat + lr.2.toNat, img.dtype⟩ := by
  unfold npPad
  rw [if_neg]
  push_neg
  exact ⟨h1, h2, h3, h4⟩

theorem npPadMask_ok_of_nonneg {tb lr : ℤ × ℤ} (m : NpMask)
    (h1 : 0 ≤ tb.1) (h2 : 0 ≤ tb.2) (h3 : 0 ≤ lr.1) (h4 : 0 ≤ lr.2) :
    npPadMask m tb lr = .ok ⟨m.hgt + tb.1.toNat + tb.2.toNat, m.wid + lr.1.toNat + lr.2.toNat⟩ := by
  unfold npPadMask
  rw [if_neg]
  push_neg
  exact ⟨h1, h2, h3, h4⟩

theorem pad64Pads_nonneg (d : ℕ) : 0 ≤ (pad64Pads d).1 ∧ 0 ≤ (pad64Pads d).2 := by
  unfold pad64Pads
  split_ifs with h
  · have hle : d % 64 ≤ d := Nat.mod_le d 64
    constructor <;> simp only [] <;> omega
  · simp

theorem squareFinish_inv {image : NpImage} {max_dim : Option ℕ} {s : ℚ} {dt : String}
    {out : ResizeOut} (h : squareFinish image max_dim s dt = .ok out) :
    ∃ (md : ℕ) (t b l r : ℤ), max_dim = some md ∧
      t = ((md : ℤ) - image.hgt) / 2 ∧ b = (md : ℤ) - image.hgt - t ∧
      l = ((md : ℤ) - image.wid) / 2 ∧ r = (md : ℤ) - image.wid - l ∧
      0 ≤ t ∧ 0 ≤ b ∧ 0 ≤ l ∧ 0 ≤ r ∧
      out = ⟨⟨image.hgt + t.toNat + b.toNat, image.wid + l.toNat + r.toNat, dt⟩,
             (t, l, (image.hgt : ℤ) + t, (image.wid : ℤ) + l),
             s, [(t, b), (l, r), (0, 0)], none⟩ := by
  cases max_dim with
  | none => unfold squareFinish at h; exact absurd h (by simp)
  | some md =>
    unfold squareFinish at h
    simp only [] at h
    cases hp : npPad image
        (((md : ℤ) - image.hgt) / 2,
         (md : ℤ) - image.hgt - ((md : ℤ) - image.hgt) / 2)
        (((md : ℤ) - image.wid) / 2,
         (md : ℤ) - image.wid - ((md : ℤ) - image.wid) / 2) with
    | error e => rw [hp] at h; exact absurd h (by simp)
    | ok padded =>
      rw [hp] at h
      simp only [] at h
      obtain ⟨h1, h2, h3, h4, hpadded⟩ := npPad_ok hp
      refine ⟨md, _, _, _, _, rfl, rfl, rfl, rfl, rfl, h1, h2, h3, h4, ?_⟩
      injection h with h
      rw [← h, hpadded]

theorem pad64Finish_inv {image : NpImage} {min_dim : Option ℕ} {s : ℚ} {dt : String}
    {out : ResizeOut} (h : pad64Finish image min_dim s dt = .ok out) :
    ∃ md : ℕ, min_dim = some md ∧ md % 64 = 0 ∧
      out = ⟨⟨padDim image.hgt, padDim image.wid, dt⟩,
             ((pad64Pads image.hgt).1, (pad64Pads image.wid).1,
              (image.hgt : ℤ) + (pad64Pads image.hgt).1,
              (image.wid : ℤ) + (pad64Pads image.wid).1),
             s, [pad64Pads image.hgt, pad64Pads image.wid, (0, 0)], none⟩ := by
  cases min_dim with
  | none => unfold pad64Finish at h; exact absurd h (by simp)
  | some md =>
    unfold pad64Finish at h
    simp only [] at h
    by_cases h64 : md % 64 ≠ 0
    · rw [if_pos h64] at h
      exact absurd h (by simp)
    · rw [if_neg h64] at h
      push_neg at h64
      cases hp : npPad image (pad64Pads image.hgt) (pad64Pads image.wid) with
      | error e => rw [hp] at h; exact absurd h (by simp)
      | ok padded =>
        rw [hp] at h
        obtain ⟨h1, h2, h3, h4, hpadded⟩ := npPad_ok hp
        refine ⟨md, rfl, h64, ?_⟩
        injection h with h
        rw [← h, hpadded]
        rfl

theorem cropFinish_inv {image : NpImage} {min_dim : Option ℕ} {s : ℚ} {dt : String}
    {ry rx : ℕ} {out : ResizeOut} (h : cropFinish image min_dim s dt ry rx = .ok out) :
    ∃ (md : ℕ) (y x : ℤ), min_dim = some md ∧
      0 ≤ y ∧ y ≤ (image.hgt : ℤ) - md ∧ 0 ≤ x ∧ x ≤ (image.wid : ℤ) - md ∧
      out = ⟨⟨sliceLen image.hgt y.toNat md, sliceLen image.wid x.toNat md, dt⟩,
             (0, 0, (md : ℤ), (md : ℤ)), s, [(0, 0), (0, 0), (0, 0)],
             some (y, x, md, md)⟩ := by
  cases min_dim with
  | none => unfold cropFinish at h; exact absurd h (by simp)
  | some md =>
    unfold cropFinish at h
    simp only [] at h
    cases hy : randint 0 ((image.hgt : ℤ) - md) ry with
    | error e => rw [hy] at h; exact absurd h (by simp)
    | ok y =>
      rw [hy] at h
      cases hx : randint 0 ((image.wid : ℤ) - md) rx with
      | error e => rw [hx] at h; exact absurd h (by simp)
      | ok x =>
        rw [hx] at h
        unfold randint at hy hx
        split_ifs at hy hx with hy0 hx0
        push_neg at hy0 hx0
        injection hy with hy
        injection hx with hx
        have hymod := Int.emod_nonneg (ry : ℤ) (by omega : ((image.hgt : ℤ) - md - 0 + 1) ≠ 0)
        have hymod2 := Int.emod_lt_of_pos (ry : ℤ) (by omega : (0:ℤ) < (image.hgt : ℤ) - md - 0 + 1)
        have hxmod := Int.emod_nonneg (rx : ℤ) (by omega : ((image.wid : ℤ) - md - 0 + 1) ≠ 0)
        have hxmod2 := Int.emod_lt_of_pos (rx : ℤ) (by omega : (0:ℤ) < (image.wid : ℤ) - md - 0 + 1)
        refine ⟨md, y, x, rfl, by omega, by omega, by omega, by omega, ?_⟩
        injection h with h
        exact h.symm

theorem one_le_scale1 (h w : ℕ) (min_dim : Option ℕ) : 1 ≤ scale1 h w min_dim := by
  unfold scale1
  split_ifs
  · exact le_max_left _ _
  · exact le_refl 1

theorem one_le_scale2 (h w : ℕ) (min_dim : Option ℕ) (min_scale : Option ℚ) :
    1 ≤ scale2 h w min_dim min_scale := by
  unfold scale2
  split_ifs with hc
  · exact le_trans (one_le_scale1 h w min_dim) (le_of_lt hc.2)
  · exact one_le_scale1 h w min_dim

theorem scale1_le_scale2 (h w : ℕ) (min_dim : Option ℕ) (min_scale : Option ℚ) :
    scale1 h w min_dim ≤ scale2 h w min_dim min_scale := by
  unfold scale2
  split_ifs with hc
  · exact le_of_lt hc.2
  · exact le_refl _

theorem div_le_scale1 (h w : ℕ) (m : ℕ) :
    (m : ℚ) / (min h w : ℚ) ≤ scale1 h w (some m) := by
  by_cases hm : m = 0
  · subst hm
    simp
    exact le_trans (by norm_num) (one_le_scale1 h w (some 0))
  · unfold scale1
    rw [if_pos (by simpa using hm)]
    exact le_max_right _ _

theorem computeScale_nonsquare {h w : ℕ} {min_dim max_dim : Option ℕ}
    {min_scale : Option ℚ} {mode : String}
    (hns : mode ≠ "square") (hz : ¬(pyTruthyN min_dim ∧ min h w = 0)) :
    computeScale h w min_dim max_dim min_scale mode = .ok (scale2 h w min_dim min_scale) := by
  unfold computeScale
  rw [if_neg hz, if_neg (by intro hc; exact hns hc.2.1)]

theorem crop_dims_lb (h w m : ℕ) (hmin : 1 ≤ min h w) (ms : Option ℚ) :
    (m : ℤ) ≤ pyRound ((h : ℚ) * scale2 h w (some m) ms) ∧
    (m : ℤ) ≤ pyRound ((w : ℚ) * scale2 h w (some m) ms) := by
  have hs2 : (m : ℚ) / (min h w : ℚ) ≤ scale2 h w (some m) ms :=
    le_trans (div_le_scale1 h w m) (scale1_le_scale2 h w (some m) ms)
  have hminq : (1 : ℚ) ≤ (min h w : ℚ) := by exact_mod_cast hmin
  have key : ∀ d : ℕ, min h w ≤ d → (m : ℤ) ≤ pyRound ((d : ℚ) * scale2 h w (some m) ms) := by
    intro d hd
    apply le_pyRound_of_le
    have hdq : (min h w : ℚ) ≤ (d : ℚ) := by exact_mod_cast hd
    have h1 : (m : ℚ) ≤ (min h w : ℚ) * scale2 h w (some m) ms := by
      calc (m : ℚ) = (min h w : ℚ) * ((m : ℚ) / (min h w : ℚ)) := by
              field_simp
        _ ≤ (min h w : ℚ) * scale2 h w (some m) ms := by
              apply mul_le_mul_of_nonneg_left hs2 (by linarith)
    have h2 : (min h w : ℚ) * scale2 h w (some m) ms ≤ (d : ℚ) * scale2 h w (some m) ms := by
      apply mul_le_mul_of_nonneg_right hdq
      have := one_le_scale2 h w (some m) ms
      linarith
    push_cast
    linarith
  exact ⟨key h (Nat.min_le_left h w), key w (Nat.min_le_right h w)⟩

theorem square_scaled_le {h w md : ℕ} {min_dim : Option ℕ} {ms : Option ℚ} {s : ℚ}
    (hh : 1 ≤ h) (hw : 1 ≤ w) (hmd : 1 ≤ md)
    (hcs : computeScale h w min_dim (some md) ms "square" = .ok s) :
    pyRound ((h : ℚ) * s) ≤ (md : ℤ) ∧ pyRound ((w : ℚ) * s) ≤ (md : ℤ) ∧ 0 ≤ s := by
  unfold computeScale at hcs
  rw [if_neg (by rintro ⟨-, hz⟩; omega)] at hcs
  simp only [Option.getD_some] at hcs
  have hmaxq : (1 : ℚ) ≤ max (h : ℚ) (w : ℚ) :=
    le_trans (by exact_mod_cast hh) (le_max_left _ _)
  have hmaxne : max (h : ℚ) (w : ℚ) ≠ 0 := by linarith
  have hhle : (h : ℚ) ≤ max (h : ℚ) (w : ℚ) := le_max_left _ _
  have hwle : (w : ℚ) ≤ max (h : ℚ) (w : ℚ) := le_max_right _ _
  split_ifs at hcs with hcap
  · injection hcs with hcs
    subst hcs
    have hs0 : (0 : ℚ) ≤ (md : ℚ) / (max (h : ℚ) (w : ℚ)) := by positivity
    have hle : ∀ d : ℚ, d ≤ max (h : ℚ) (w : ℚ) →
        pyRound (d * ((md : ℚ) / max (h : ℚ) (w : ℚ))) ≤ (md : ℤ) := by
      intro d hd
      apply pyRound_le_of_le
      have h1 : d * ((md : ℚ) / max (h : ℚ) (w : ℚ)) ≤
          max (h : ℚ) (w : ℚ) * ((md : ℚ) / max (h : ℚ) (w : ℚ)) :=
        mul_le_mul_of_nonneg_right hd hs0
      have h2 : max (h : ℚ) (w : ℚ) * ((md : ℚ) / max (h : ℚ) (w : ℚ)) = (md : ℚ) :=
        mul_div_cancel₀ _ hmaxne
      rw [h2] at h1
      push_cast
      linarith
    exact ⟨hle _ hhle, hle _ hwle, hs0⟩
  · injection hcs with hcs
    subst hcs
    push_neg at hcap
    have hub : pyRound ((max (h : ℚ) (w : ℚ)) * scale2 h w min_dim ms) ≤ (md : ℤ) := by
      have := hcap (by simp only [Option.getD_some]; omega) trivial
      omega
    have hone := one_le_scale2 h w min_dim ms
    have hle : ∀ d : ℚ, d ≤ max (h : ℚ) (w : ℚ) →
        pyRound (d * scale2 h w min_dim ms) ≤ (md : ℤ) := by
      intro d hd
      refine le_trans (pyRound_mono ?_) hub
      apply mul_le_mul_of_nonneg_right hd
      linarith
    exact ⟨hle _ hhle, hle _ hwle, by linarith⟩

theorem resize_mask_crop (mask : NpMask) (s : ℚ) (padding : List (ℤ × ℤ))
    (y x : ℤ) (ch cw : ℕ) :
    resize_mask mask s padding (some (y, x, ch, cw)) =
      .ok (⟨sliceLen (pyRound ((mask.hgt : ℚ) * s)).toNat y.toNat ch,
            sliceLen (pyRound ((mask.wid : ℚ) * s)).toNat x.toNat cw⟩, padding) := rfl

theorem resize_mask_pad (mask : NpMask) (s : ℚ) (p0 p1 p2 : ℤ × ℤ)
    (h1 : 0 ≤ p0.1) (h2 : 0 ≤ p0.2) (h3 : 0 ≤ p1.1) (h4 : 0 ≤ p1.2) :
    resize_mask mask s [p0, p1, p2] none =
      .ok (⟨(pyRound ((mask.hgt : ℚ) * s)).toNat + p0.1.toNat + p0.2.toNat,
            (pyRound ((mask.wid : ℚ) * s)).toNat + p1.1.toNat + p1.2.toNat⟩,
           [p0, p1]) := by
  unfold resize_mask
  simp only []
  rw [if_neg (by simp)]
  have herase : ([p0, p1, p2].eraseIdx 2) = [p0, p1] := rfl
  rw [herase]
  simp only []
  rw [npPadMask_ok_of_nonneg _ h1 h2 h3 h4]
  rfl

theorem sliceLen_of_le {len start count : ℕ} (h : start + count ≤ len) :
    sliceLen len start count = count := by
  unfold sliceLen
  omega

theorem pad64Pads_spec (d : ℕ) :
    64 ∣ padDim d ∧ d ≤ padDim d ∧ padDim d < d + 64 ∧
    (pad64Pads d).1 = ((padDim d : ℤ) - d) / 2 ∧
    (pad64Pads d).2 = (padDim d : ℤ) - d - (pad64Pads d).1 ∧
    (64 ∣ d → pad64Pads d = (0, 0)) := by
  unfold padDim pad64Pads
  split_ifs with hd
  · simp only []
    refine ⟨?_, ?_, ?_, ?_, ?_, ?_⟩
    · omega
    · omega
    · omega
    · omega
    · omega
    · intro hdvd
      exfalso
      omega
  · simp only []
    refine ⟨by omega, by omega, by omega, by omega, by omega, fun _ => trivial⟩

theorem resize_image_ok_cases {img : NpImage} {mind maxd : Option ℕ} {ms : Option ℚ}
    {mode : String} {ry rx : ℕ} {out : ResizeOut}
    (h : resize_image img mind maxd ms mode ry rx = .ok out) :
    (mode = "none" ∧
       out = ⟨img, (0, 0, (img.hgt : ℤ), (img.wid : ℤ)), 1, [(0, 0), (0, 0), (0, 0)], none⟩)
    ∨ ∃ s, computeScale img.hgt img.wid mind maxd ms mode = .ok s ∧
        ((mode = "square" ∧ squareFinish (resizedImage img s) maxd s img.dtype = .ok out)
         ∨ (mode = "pad64" ∧ pad64Finish (resizedImage img s) mind s img.dtype = .ok out)
         ∨ (mode = "crop" ∧ cropFinish (resizedImage img s) mind s img.dtype ry rx = .ok out)) := by
  unfold resize_image at h
  by_cases h0 : mode = "none"
  · rw [if_pos h0] at h
    injection h with h
    exact Or.inl ⟨h0, h.symm⟩
  · rw [if_neg h0] at h
    cases hcs : computeScale img.hgt img.wid mind maxd ms mode with
    | error e => rw [hcs] at h; exact absurd h (by simp)
    | ok s =>
      rw [hcs] at h
      simp only [] at h
      by_cases h1 : mode = "square"
      · rw [if_pos h1] at h
        exact Or.inr ⟨s, rfl, Or.inl ⟨h1, h⟩⟩
      · rw [if_neg h1] at h
        by_cases h2 : mode = "pad64"
        · rw [if_pos h2] at h
          exact Or.inr ⟨s, rfl, Or.inr (Or.inl ⟨h2, h⟩)⟩
        · rw [if_neg h2] at h
          by_cases h3 : mode = "crop"
          · rw [if_pos h3] at h
            exact Or.inr ⟨s, rfl, Or.inr (Or.inr ⟨h3, h⟩)⟩
          · rw [if_neg h3] at h
            exact absurd h (by simp)

theorem computeScale_isOk {h w : ℕ} (mind maxd : Option ℕ) (ms : Option ℚ) (mode : String)
    (hz : ¬(pyTruthyN mind ∧ min h w = 0)) :
    ∃ s, computeScale h w mind maxd ms mode = .ok s := by
  unfold computeScale
  rw [if_neg hz]
  split_ifs
  · exact ⟨_, rfl⟩
  · exact ⟨_, rfl⟩

theorem squareFinish_isOk {image : NpImage} {md : ℕ} (s : ℚ) (dt : String)
    (hh : image.hgt ≤ md) (hw : image.wid ≤ md) :
    ∃ out, squareFinish image (some md) s dt = .ok out := by
  unfold squareFinish
  simp only []
  rw [npPad_ok_of_nonneg image (by simp only []; omega) (by simp only []; omega)
      (by simp only []; omega) (by simp only []; omega)]
  exact ⟨_, rfl⟩

theorem pad64Finish_isOk {md : ℕ} (image : NpImage) (s : ℚ) (dt : String)
    (h64 : md % 64 = 0) :
    ∃ out, pad64Finish image (some md) s dt = .ok out := by
  unfold pad64Finish
  simp only []
  rw [if_neg (by omega)]
  rw [npPad_ok_of_nonneg image (pad64Pads_nonneg image.hgt).1 (pad64Pads_nonneg image.hgt).2
      (pad64Pads_nonneg image.wid).1 (pad64Pads_nonneg image.wid).2]
  exact ⟨_, rfl⟩

theorem pad64Finish_isErr {md : ℕ} (image : NpImage) (s : ℚ) (dt : String)
    (h64 : md % 64 ≠ 0) :
    ∃ e, pad64Finish image (some md) s dt = .error e := by
  unfold pad64Finish
  simp only []
  rw [if_pos (by omega)]
  exact ⟨_, rfl⟩

theorem cropFinish_isOk {image : NpImage} {md : ℕ} (s : ℚ) (dt : String) (ry rx : ℕ)
    (hh : md ≤ image.hgt) (hw : md ≤ image.wid) :
    ∃ out, cropFinish image (some md) s dt ry rx = .ok out := by
  unfold cropFinish
  simp only []
  unfold randint
  rw [if_neg (by omega : ¬((image.hgt : ℤ) - md < 0)),
      if_neg (by omega : ¬((image.wid : ℤ) - md < 0))]
  exact ⟨_, rfl⟩

theorem resize_mask_short (mask : NpMask) (s : ℚ) (p : List (ℤ × ℤ)) (hp : p.length < 3) :
    ∃ e, resize_mask mask s p none = .error e := by
  unfold resize_mask
  simp only []
  rw [if_pos hp]
  exact ⟨_, rfl⟩

theorem foldl_max_acc (g : Ann → ℕ) (l : List Ann) (acc : ℕ) :
    l.foldl (fun a e => max a (g e)) acc = max acc (l.foldl (fun a e => max a (g e)) 0) := by
  induction l generalizing acc with
  | nil => simp
  | cons e t ih =>
    simp only [List.foldl_cons]
    rw [ih (max acc (g e)), ih (max 0 (g e))]
    omega

theorem computeScale_maxdim_irrelevant {mode : String} (hns : mode ≠ "square")
    (h w : ℕ) (mind m1 m2 : Option ℕ) (ms : Option ℚ) :
    computeScale h w mind m1 ms mode = computeScale h w mind m2 ms mode := by
  unfold computeScale
  by_cases hz : pyTruthyN mind ∧ min h w = 0
  · rw [if_pos hz, if_pos hz]
  · rw [if_neg hz, if_neg hz,
        if_neg (fun hc => hns hc.2.1), if_neg (fun hc => hns hc.2.1)]

/-- C4: with `mode="none"`, `resize_image` returns the input image unchanged
together with `window = (0, 0, h, w)`, `scale = 1`,
`padding = [(0,0),(0,0),(0,0)]` and no crop (dent.py lines 123-131). -/
theorem mode_none_identity (img : NpImage) (min_dim max_dim : Option ℕ)
    (min_scale : Option ℚ) (ry rx : ℕ) :
    resize_image img min_dim max_dim min_scale "none" ry rx =
      .ok ⟨img, (0, 0, (img.hgt : ℤ), (img.wid : ℤ)), 1, [(0, 0), (0, 0), (0, 0)], none⟩ := by
  unfold resize_image
  rw [if_pos rfl]

/-- C2: for a 600x800 image with `min_dim = max_dim = 1024`, `min_scale = 0`
and `mode = "square"`, `resize_image` returns scale `1024/800 = 1.28`, a
1024x1024 image, padding `((128,128),(0,0),(0,0))` and window
`(128, 0, 896, 1024)` (dent.py lines 133-161). -/
theorem square_mode_example :
    resize_image ⟨600, 800, "uint8"⟩ (some 1024) (some 1024) (some 0) "square" 0 0
      = .ok ⟨⟨1024, 1024, "uint8"⟩, (128, 0, 896, 1024), (1024 : ℚ) / 800,
             [(128, 128), (0, 0), (0, 0)], none⟩ := by
  unfold resize_image computeScale scale2 scale1 resizedImage squareFinish npPad
  norm_num [pyTruthyN, pyTruthyQ, pyRound]
  rfl

/-- C9: the image returned by `resize_image` always has the numeric element
type of the input image, since the result is cast back with
`image.astype(image_dtype)` (dent.py lines 120-121 and 193) and mode
`"none"` returns the input unchanged. -/
theorem dtype_preserved {img : NpImage} {mind maxd : Option ℕ} {ms : Option ℚ}
    {mode : String} {ry rx : ℕ} {out : ResizeOut}
    (hok : resize_image img mind maxd ms mode ry rx = .ok out) :
    out.image.dtype = img.dtype := by
  rcases resize_image_ok_cases hok with ⟨-, hout⟩ | ⟨s, -, hfin⟩
  · rw [hout]
  · rcases hfin with ⟨-, hf⟩ | ⟨-, hf⟩ | ⟨-, hf⟩
    · obtain ⟨md, t, b, l, r, -, -, -, -, -, -, -, -, -, hout⟩ := squareFinish_inv hf
      rw [hout]
    · obtain ⟨md, -, -, hout⟩ := pad64Finish_inv hf
      rw [hout]
    · obtain ⟨md, y, x, -, -, -, -, -, hout⟩ := cropFinish_inv hf
      rw [hout]

/-- Witness for C9 at the concrete 600x800 uint8 input of the square example. -/
theorem dtype_preserved_witness :
    (ResizeOut.mk ⟨1024, 1024, "uint8"⟩ (128, 0, 896, 1024) ((1024 : ℚ) / 800)
        [(128, 128), (0, 0), (0, 0)] none).image.dtype = "uint8" :=
  @dtype_preserved ⟨600, 800, "uint8"⟩ (some 1024) (some 1024) (some 0) "square" 0 0
    ⟨⟨1024, 1024, "uint8"⟩, (128, 0, 896, 1024), (1024 : ℚ) / 800,
     [(128, 128), (0, 0), (0, 0)], none⟩
    (by unfold resize_image computeScale scale2 scale1 resizedImage squareFinish npPad
        norm_num [pyTruthyN, pyTruthyQ, pyRound]
        rfl)

/-- C5: the label map built in `__getitem__` before resizing assigns to every
pixel the maximum label value over the instance masks covering it (category id
in test mode, `step + 1` in training mode) and 0 where nothing covers it; two
overlapping instances labelled 2 and 3 in test mode end as 3 on the overlap,
keep 2 and 3 on their exclusive parts, and 0 on background
(dent.py lines 66-76). -/
theorem label_max_combine :
    (∀ (test : Bool) (step : ℕ) (anns : List Ann) (i j : ℕ),
      buildMask test step anns i j
        = ((anns.filter (fun a => a.m i j)).map (annLabel test step)).foldr max 0)
    ∧ (∀ i j : ℕ,
        buildMask true 0
          [⟨fun i j => decide (i < 4 ∧ j < 4), 2⟩,
           ⟨fun i j => decide (2 ≤ i ∧ i < 6 ∧ j < 4), 3⟩] i j
          = if 2 ≤ i ∧ i < 6 ∧ j < 4 then 3
            else if i < 4 ∧ j < 4 then 2 else 0) := by
  have hgen : ∀ (test : Bool) (step : ℕ) (anns : List Ann) (i j : ℕ),
      buildMask test step anns i j
        = ((anns.filter (fun a => a.m i j)).map (annLabel test step)).foldr max 0 := by
    intro test step anns i j
    unfold buildMask
    induction anns with
    | nil => rfl
    | cons a t ih =>
      simp only [List.foldl_cons, List.filter_cons]
      rw [foldl_max_acc, ih]
      by_cases hc : a.m i j
      · simp only [hc, if_pos, List.map_cons, List.foldr_cons]
        omega
      · rw [if_neg hc]
        simp only [hc, Bool.false_eq_true, if_false]
        omega
  refine ⟨hgen, ?_⟩
  intro i j
  rw [hgen]
  by_cases hi4 : i < 4 <;> by_cases hj4 : j < 4 <;>
    by_cases hi2 : 2 ≤ i <;> by_cases hi6 : i < 6 <;>
      simp [List.filter, annLabel, hi4, hj4, hi2, hi6]

/-- C10: with `crop = None`, `resize_mask` pops the channel-axis entry at
index 2 out of the caller's padding list before padding (dent.py line 214):
after the call the list is its first two entries (length 2, not 3), and
passing that shortened list to a second call raises an `IndexError`. -/
theorem resize_mask_mutates_padding (mask : NpMask) (s : ℚ) (p0 p1 p2 : ℤ × ℤ)
    (h1 : 0 ≤ p0.1) (h2 : 0 ≤ p0.2) (h3 : 0 ≤ p1.1) (h4 : 0 ≤ p1.2) :
    (∃ m, resize_mask mask s [p0, p1, p2] none = .ok (m, [p0, p1]))
    ∧ [p0, p1] = [p0, p1, p2].eraseIdx 2
    ∧ ([p0, p1] : List (ℤ × ℤ)).length = 2 ∧ ([p0, p1, p2] : List (ℤ × ℤ)).length = 3
    ∧ (∀ (m2 : NpMask) (s2 : ℚ), ∃ e, resize_mask m2 s2 [p0, p1] none = .error e) := by
  refine ⟨⟨_, resize_mask_pad mask s p0 p1 p2 h1 h2 h3 h4⟩, rfl, rfl, rfl, ?_⟩
  intro m2 s2
  exact resize_mask_short m2 s2 [p0, p1] (by simp)

/-- Witness for C10 at a concrete padding list. -/
theorem resize_mask_mutates_padding_witness :
    (∃ m, resize_mask ⟨4, 6⟩ 1 [((1 : ℤ), (2 : ℤ)), ((3 : ℤ), (4 : ℤ)), ((9 : ℤ), (9 : ℤ))] none
        = .ok (m, [((1 : ℤ), (2 : ℤ)), ((3 : ℤ), (4 : ℤ))]))
    ∧ [((1 : ℤ), (2 : ℤ)), ((3 : ℤ), (4 : ℤ))]
        = [((1 : ℤ), (2 : ℤ)), ((3 : ℤ), (4 : ℤ)), ((9 : ℤ), (9 : ℤ))].eraseIdx 2
    ∧ ([((1 : ℤ), (2 : ℤ)), ((3 : ℤ), (4 : ℤ))] : List (ℤ × ℤ)).length = 2
    ∧ ([((1 : ℤ), (2 : ℤ)), ((3 : ℤ), (4 : ℤ)), ((9 : ℤ), (9 : ℤ))] : List (ℤ × ℤ)).length = 3
    ∧ (∀ (m2 : NpMask) (s2 : ℚ), ∃ e,
        resize_mask m2 s2 [((1 : ℤ), (2 : ℤ)), ((3 : ℤ), (4 : ℤ))] none = .error e) :=
  resize_mask_mutates_padding ⟨4, 6⟩ 1 (1, 2) (3, 4) (9, 9)
    (by decide) (by decide) (by decide) (by decide)

/-- C6: in pad64 mode each spatial dimension is padded to the smallest
multiple of 64 that is at least the scaled dimension, split as
`before = (diff) // 2`, `after = diff - before`, with zero padding on an axis
already a multiple of 64; `max_dim` plays no role; a scaled height of 100 is
padded to 128 with `top_pad = bottom_pad = 14` (dent.py lines 162-182). -/
theorem pad64_geometry :
    (∀ (img : NpImage) (mind m1 m2 : Option ℕ) (ms : Option ℚ) (ry rx : ℕ),
        resize_image img mind m1 ms "pad64" ry rx = resize_image img mind m2 ms "pad64" ry rx)
    ∧ (∀ d : ℕ, 64 ∣ padDim d ∧ d ≤ padDim d ∧ padDim d < d + 64 ∧
        (pad64Pads d).1 = ((padDim d : ℤ) - d) / 2 ∧
        (pad64Pads d).2 = (padDim d : ℤ) - d - (pad64Pads d).1 ∧
        (64 ∣ d → pad64Pads d = (0, 0)))
    ∧ (∀ (image : NpImage) (mind : Option ℕ) (s : ℚ) (dt : String) (out : ResizeOut),
        pad64Finish image mind s dt = .ok out →
        out.image.hgt = padDim image.hgt ∧ out.image.wid = padDim image.wid)
    ∧ pad64Pads 100 = (14, 14) ∧ padDim 100 = 128 := by
  refine ⟨?_, pad64Pads_spec, ?_, by decide, by decide⟩
  · intro img mind m1 m2 ms ry rx
    unfold resize_image
    rw [if_neg (by decide), if_neg (by decide)]
    rw [computeScale_maxdim_irrelevant (by decide) img.hgt img.wid mind m1 m2 ms]
    cases computeScale img.hgt img.wid mind m2 ms "pad64" with
    | error e => rfl
    | ok s =>
      simp only []
      rw [if_neg (by decide), if_pos trivial, if_neg (by decide)]
  · intro image mind s dt out hf
    obtain ⟨md, -, -, hout⟩ := pad64Finish_inv hf
    rw [hout]
    exact ⟨rfl, rfl⟩

/-- Witness for C6: `max_dim` irrelevance and the padded size at height 100,
width 200. -/
theorem pad64_geometry_witness :
    (resize_image ⟨100, 200, "uint8"⟩ (some 64) (some 50) none "pad64" 3 7
       = resize_image ⟨100, 200, "uint8"⟩ (some 64) none none "pad64" 3 7)
    ∧ (128 = padDim 100 ∧ 256 = padDim 200) :=
  ⟨pad64_geometry.1 ⟨100, 200, "uint8"⟩ (some 64) (some 50) none none 3 7,
   pad64_geometry.2.2.1 ⟨100, 200, "float64"⟩ (some 64) 1 "uint8"
     ⟨⟨128, 256, "uint8"⟩, (14, 28, 114, 228), 1, [(14, 14), (28, 28), (0, 0)], none⟩
     (by rfl)⟩

/-- C1: for a mask with the original spatial dimensions of the image and any
successful `resize_image` call, `resize_mask` applied to the returned scale,
padding and crop yields a mask whose spatial shape equals the spatial shape of
the returned image (dent.py lines 88-193 and 196-216). -/
theorem shape_consistency {img : NpImage} {mind maxd : Option ℕ} {ms : Option ℚ}
    {mode : String} {ry rx : ℕ} {out : ResizeOut} {mask : NpMask}
    (hok : resize_image img mind maxd ms mode ry rx = .ok out)
    (hmh : mask.hgt = img.hgt) (hmw : mask.wid = img.wid) :
    (resize_mask mask out.scale out.padding out.crop).map (fun p => (p.1.hgt, p.1.wid))
      = .ok (out.image.hgt, out.image.wid) := by
  rcases resize_image_ok_cases hok with ⟨-, hout⟩ | ⟨s, -, hfin⟩
  · subst hout
    simp only []
    rw [resize_mask_pad mask 1 (0, 0) (0, 0) (0, 0) le_rfl le_rfl le_rfl le_rfl]
    simp [Except.map, mul_one, pyRound_natCast, hmh, hmw]
  · rcases hfin with ⟨-, hf⟩ | ⟨-, hf⟩ | ⟨-, hf⟩
    · obtain ⟨md, t, b, l, r, -, -, -, -, -, h1, h2, h3, h4, hout⟩ := squareFinish_inv hf
      subst hout
      simp only []
      rw [resize_mask_pad mask s (t, b) (l, r) (0, 0) h1 h2 h3 h4]
      simp only [Except.map]
      rw [hmh, hmw, ← resizedImage_hgt, ← resizedImage_wid]
    · obtain ⟨md, -, -, hout⟩ := pad64Finish_inv hf
      subst hout
      simp only []
      rw [resize_mask_pad mask s (pad64Pads (resizedImage img s).hgt)
            (pad64Pads (resizedImage img s).wid) (0, 0)
            (pad64Pads_nonneg (resizedImage img s).hgt).1
            (pad64Pads_nonneg (resizedImage img s).hgt).2
            (pad64Pads_nonneg (resizedImage img s).wid).1
            (pad64Pads_nonneg (resizedImage img s).wid).2]
      simp only [Except.map]
      rw [hmh, hmw, ← resizedImage_hgt, ← resizedImage_wid]
      rfl
    · obtain ⟨md, y, x, -, -, -, -, -, hout⟩ := cropFinish_inv hf
      subst hout
      simp only []
      rw [resize_mask_crop mask s _ y x md md]
      simp only [Except.map]
      rw [hmh, hmw, ← resizedImage_hgt, ← resizedImage_wid]

/-- Witness for C1 at the concrete 600x800 square-mode example. -/
theorem shape_consistency_witness :
    (resize_mask ⟨600, 800⟩ ((1024 : ℚ) / 800) [(128, 128), (0, 0), (0, 0)] none).map
        (fun p => (p.1.hgt, p.1.wid)) = .ok (1024, 1024) :=
  @shape_consistency ⟨600, 800, "uint8"⟩ (some 1024) (some 1024) (some 0) "square" 0 0
    ⟨⟨1024, 1024, "uint8"⟩, (128, 0, 896, 1024), (1024 : ℚ) / 800,
     [(128, 128), (0, 0), (0, 0)], none⟩ ⟨600, 800⟩
    (by unfold resize_image computeScale scale2 scale1 resizedImage squareFinish npPad
        norm_num [pyTruthyN, pyTruthyQ, pyRound]
        rfl)
    rfl rfl

theorem resize_image_none (img : NpImage) (mind maxd : Option ℕ) (ms : Option ℚ)
    (ry rx : ℕ) :
    resize_image img mind maxd ms "none" ry rx =
      .ok ⟨img, (0, 0, (img.hgt : ℤ), (img.wid : ℤ)), 1, [(0, 0), (0, 0), (0, 0)], none⟩ := by
  unfold resize_image
  rw [if_pos rfl]

theorem resize_image_square_red {img : NpImage} {mind maxd : Option ℕ} {ms : Option ℚ}
    {s : ℚ} (ry rx : ℕ)
    (hs : computeScale img.hgt img.wid mind maxd ms "square" = .ok s) :
    resize_image img mind maxd ms "square" ry rx
      = squareFinish (resizedImage img s) maxd s img.dtype := by
  unfold resize_image
  rw [if_neg (by decide), hs]
  simp only []
  rw [if_pos trivial]

theorem resize_image_pad64_red {img : NpImage} {mind maxd : Option ℕ} {ms : Option ℚ}
    {s : ℚ} (ry rx : ℕ)
    (hs : computeScale img.hgt img.wid mind maxd ms "pad64" = .ok s) :
    resize_image img mind maxd ms "pad64" ry rx
      = pad64Finish (resizedImage img s) mind s img.dtype := by
  unfold resize_image
  rw [if_neg (by decide), hs]
  simp only []
  rw [if_neg (by decide), if_pos trivial]

theorem resize_image_crop_red {img : NpImage} {mind maxd : Option ℕ} {ms : Option ℚ}
    {s : ℚ} (ry rx : ℕ)
    (hs : computeScale img.hgt img.wid mind maxd ms "crop" = .ok s) :
    resize_image img mind maxd ms "crop" ry rx
      = cropFinish (resizedImage img s) mind s img.dtype ry rx := by
  unfold resize_image
  rw [if_neg (by decide), hs]
  simp only []
  rw [if_neg (by decide), if_neg (by decide), if_pos trivial]

theorem resize_image_bad_mode {img : NpImage} {mind maxd : Option ℕ} {ms : Option ℚ}
    {mode : String} (ry rx : ℕ)
    (h0 : mode ≠ "none") (h1 : mode ≠ "square") (h2 : mode ≠ "pad64") (h3 : mode ≠ "crop")
    {s : ℚ} (hs : computeScale img.hgt img.wid mind maxd ms mode = .ok s) :
    resize_image img mind maxd ms mode ry rx
      = .error (String.append "Mode not supported: " mode) := by
  unfold resize_image
  rw [if_neg h0, hs]
  simp only []
  rw [if_neg h1, if_neg h2, if_neg h3]

theorem resize_image_scale {img : NpImage} {mind maxd : Option ℕ} {ms : Option ℚ}
    {mode : String} {ry rx : ℕ} {out : ResizeOut}
    (hmode : mode ≠ "none")
    (hok : resize_image img mind maxd ms mode ry rx = .ok out) :
    computeScale img.hgt img.wid mind maxd ms mode = .ok out.scale := by
  rcases resize_image_ok_cases hok with ⟨hm, -⟩ | ⟨s, hcs, hfin⟩
  · exact absurd hm hmode
  · rcases hfin with ⟨-, hf⟩ | ⟨-, hf⟩ | ⟨-, hf⟩
    · obtain ⟨md, t, b, l, r, -, -, -, -, -, -, -, -, -, hout⟩ := squareFinish_inv hf
      rw [hout]
      exact hcs
    · obtain ⟨md, -, -, hout⟩ := pad64Finish_inv hf
      rw [hout]
      exact hcs
    · obtain ⟨md, y, x, -, -, -, -, -, hout⟩ := cropFinish_inv hf
      rw [hout]
      exact hcs

/-- Modelled from the wording of claim C3: the base scale
`max(1, min_dim / min(h, w))`. -/
def claimBaseScale (h w m : ℕ) : ℚ := max 1 ((m : ℚ) / (min h w : ℚ))

/-- Modelled from the wording of claim C3: the base scale raised to
`min_scale` if `min_scale` is provided and the scale is below it. -/
def claimRaisedScale (h w m : ℕ) (min_scale : Option ℚ) : ℚ :=
  match min_scale with
  | some msv => if claimBaseScale h w m < msv then msv else claimBaseScale h w m
  | none => claimBaseScale h w m

/-- Modelled from the wording of claim C3: in square mode with `max_dim`
provided, the scale is replaced by `max_dim / max(h, w)` whenever rounding
`max(h, w) * s` would exceed `max_dim`. -/
def claimScale (h w m : ℕ) (min_scale : Option ℚ) (max_dim : Option ℕ)
    (mode : String) : ℚ :=
  if mode = "square" then
    match max_dim with
    | some md =>
        if pyRound ((max h w : ℚ) * claimRaisedScale h w m min_scale) > (md : ℤ)
        then (md : ℚ) / (max h w : ℚ)
        else claimRaisedScale h w m min_scale
    | none => claimRaisedScale h w m min_scale
  else claimRaisedScale h w m min_scale

theorem scale1_eq_claim {m : ℕ} (h w : ℕ) (hm : m ≠ 0) :
    scale1 h w (some m) = claimBaseScale h w m := by
  unfold scale1 claimBaseScale
  rw [if_pos (by simpa using hm)]
  rfl

theorem one_le_claimBaseScale (h w m : ℕ) : 1 ≤ claimBaseScale h w m :=
  le_max_left _ _

theorem scale2_eq_claim {m : ℕ} (h w : ℕ) (ms : Option ℚ) (hm : m ≠ 0) :
    scale2 h w (some m) ms = claimRaisedScale h w m ms := by
  unfold scale2 claimRaisedScale
  cases ms with
  | none =>
    rw [if_neg (by simp [pyTruthyQ])]
    exact scale1_eq_claim h w hm
  | some q =>
    by_cases hq : q = 0
    · subst hq
      rw [if_neg (by simp [pyTruthyQ])]
      simp only []
      rw [if_neg (by have := one_le_claimBaseScale h w m; intro hcon; linarith)]
      exact scale1_eq_claim h w hm
    · simp only []
      rw [scale1_eq_claim h w hm]
      by_cases hlt : claimBaseScale h w m < q
      · rw [if_pos ⟨by simpa [pyTruthyQ] using hq, hlt⟩, if_pos hlt]
        rfl
      · rw [if_neg (fun hc => hlt hc.2), if_neg hlt]

theorem computeScale_eq_claim (h w m : ℕ) (maxd : Option ℕ) (ms : Option ℚ)
    (mode : String) (hm : m ≠ 0) (hz : min h w ≠ 0)
    (hmax : ∀ md, maxd = some md → md ≠ 0) :
    computeScale h w (some m) maxd ms mode = .ok (claimScale h w m ms maxd mode) := by
  unfold computeScale claimScale
  rw [if_neg (fun hc => hz hc.2)]
  by_cases hsq : mode = "square"
  · subst hsq
    rw [if_pos rfl]
    cases maxd with
    | none =>
      rw [if_neg (by rintro ⟨hc, -⟩; simp [pyTruthyN] at hc)]
      rw [scale2_eq_claim h w ms hm]
    | some md =>
      have hmd : md ≠ 0 := hmax md rfl
      rw [scale2_eq_claim h w ms hm]
      simp only [Option.getD_some]
      by_cases hcap : pyRound ((max h w : ℚ) * claimRaisedScale h w m ms) > (md : ℤ)
      · rw [if_pos ⟨by simpa [pyTruthyN] using hmd, trivial, hcap⟩, if_pos hcap]
      · rw [if_neg (fun hc => hcap hc.2.2), if_neg hcap]
  · rw [if_neg (fun hc => hsq hc.2.1), if_neg hsq]
    rw [scale2_eq_claim h w ms hm]

/-- C3: in any mode other than `"none"` with a truthy `min_dim`, the scale
returned by `resize_image` is `max(1, min_dim / min(h, w))`, raised to
`min_scale` when provided and larger, and in square mode with `max_dim`
provided replaced by `max_dim / max(h, w)` whenever rounding
`max(h, w) * scale` would exceed `max_dim` — a cap that can push the scale
back below 1 (dent.py lines 133-144). -/
theorem scale_formula {img : NpImage} {m : ℕ} {maxd : Option ℕ} {ms : Option ℚ}
    {mode : String} {ry rx : ℕ} {out : ResizeOut}
    (hmode : mode ≠ "none") (hm : m ≠ 0) (hh : img.hgt ≠ 0) (hw : img.wid ≠ 0)
    (hmax : ∀ md, maxd = some md → md ≠ 0)
    (hok : resize_image img (some m) maxd ms mode ry rx = .ok out) :
    out.scale = claimScale img.hgt img.wid m ms maxd mode := by
  have h1 := resize_image_scale hmode hok
  have h2 := computeScale_eq_claim img.hgt img.wid m maxd ms mode hm (by omega) hmax
  rw [h1] at h2
  injection h2 with h3

/-- Witness for C3 at the 600x800 square-mode configuration. -/
theorem scale_formula_witness :
    ((1024 : ℚ) / 800) = claimScale 600 800 1024 (some 0) (some 1024) "square" :=
  @scale_formula ⟨600, 800, "uint8"⟩ 1024 (some 1024) (some 0) "square" 0 0
    ⟨⟨1024, 1024, "uint8"⟩, (128, 0, 896, 1024), (1024 : ℚ) / 800,
     [(128, 128), (0, 0), (0, 0)], none⟩
    (by decide) (by decide) (by decide) (by decide)
    (fun md hmd => by injection hmd with hmd; omega)
    (by unfold resize_image computeScale scale2 scale1 resizedImage squareFinish npPad
        norm_num [pyTruthyN, pyTruthyQ, pyRound]
        rfl)

/-- C7: in crop mode, when the scaled image is at least `min_dim` in both
dimensions, every offset the random source can produce yields a top-left
`(y, x)` with `0 ≤ y ≤ h - min_dim` and `0 ≤ x ≤ w - min_dim`, a recorded crop
`(y, x, min_dim, min_dim)` inside the scaled image, an output of exactly
`min_dim x min_dim`, and window `(0, 0, min_dim, min_dim)`
(dent.py lines 183-190). -/
theorem crop_bounds {img : NpImage} {m : ℕ} {maxd : Option ℕ} {ms : Option ℚ} {s : ℚ}
    (hs : computeScale img.hgt img.wid (some m) maxd ms "crop" = .ok s)
    (hh : m ≤ (resizedImage img s).hgt) (hw : m ≤ (resizedImage img s).wid)
    (ry rx : ℕ) :
    ∃ y x : ℤ,
      resize_image img (some m) maxd ms "crop" ry rx =
        .ok ⟨⟨m, m, img.dtype⟩, (0, 0, (m : ℤ), (m : ℤ)), s, [(0, 0), (0, 0), (0, 0)],
             some (y, x, m, m)⟩
      ∧ 0 ≤ y ∧ y + m ≤ ((resizedImage img s).hgt : ℤ)
      ∧ 0 ≤ x ∧ x + m ≤ ((resizedImage img s).wid : ℤ) := by
  obtain ⟨o, ho⟩ := cropFinish_isOk s img.dtype ry rx hh hw
  obtain ⟨md', y, x, hmd', hy0, hy1, hx0, hx1, hov⟩ := cropFinish_inv ho
  injection hmd' with hmd'
  subst hmd'
  refine ⟨y, x, ?_, hy0, by omega, hx0, by omega⟩
  rw [resize_image_crop_red ry rx hs, ho, hov]
  rw [sliceLen_of_le (by omega), sliceLen_of_le (by omega)]

/-- Witness for C7 on a 700x900 image with `min_dim = 512` (scale 1) and
random oracles 1000 and 0. -/
theorem crop_bounds_witness :
    ∃ y x : ℤ,
      resize_image ⟨700, 900, "uint8"⟩ (some 512) none none "crop" 1000 0 =
        .ok ⟨⟨512, 512, "uint8"⟩, (0, 0, (512 : ℤ), (512 : ℤ)), 1,
             [(0, 0), (0, 0), (0, 0)], some (y, x, 512, 512)⟩
      ∧ 0 ≤ y ∧ y + 512 ≤ ((resizedImage ⟨700, 900, "uint8"⟩ 1).hgt : ℤ)
      ∧ 0 ≤ x ∧ x + 512 ≤ ((resizedImage ⟨700, 900, "uint8"⟩ 1).wid : ℤ) :=
  @crop_bounds ⟨700, 900, "uint8"⟩ 512 none none 1
    (by unfold computeScale scale2 scale1
        norm_num [pyTruthyN, pyTruthyQ, pyRound])
    (by norm_num [resizedImage])
    (by norm_num [resizedImage])
    1000 0

/-- C8: on a nonempty image with `min_dim` given (and, for square mode, a
positive `max_dim`), `resize_image` raises exactly when the mode string is not
one of `"none"`, `"square"`, `"pad64"`, `"crop"`, or when the mode is
`"pad64"` and `min_dim` is not a multiple of 64 (dent.py lines 162-193). -/
theorem error_conditions (img : NpImage) (m : ℕ) (maxd : Option ℕ) (ms : Option ℚ)
    (mode : String) (ry rx : ℕ)
    (hh : 1 ≤ img.hgt) (hw : 1 ≤ img.wid)
    (hsq : mode = "square" → ∃ md, maxd = some md ∧ 1 ≤ md) :
    (∃ e, resize_image img (some m) maxd ms mode ry rx = .error e) ↔
      ((mode ≠ "none" ∧ mode ≠ "square" ∧ mode ≠ "pad64" ∧ mode ≠ "crop")
       ∨ (mode = "pad64" ∧ m % 64 ≠ 0)) := by
  have hz : ¬(pyTruthyN (some m) ∧ min img.hgt img.wid = 0) := by
    rintro ⟨-, hc⟩
    omega
  by_cases h0 : mode = "none"
  · subst h0
    constructor
    · rintro ⟨e, he⟩
      rw [resize_image_none img (some m) maxd ms ry rx] at he
      exact absurd he (by simp)
    · rintro (⟨hne, -⟩ | ⟨hpd, -⟩)
      · exact absurd rfl hne
      · exact absurd hpd (by decide)
  · by_cases h1 : mode = "square"
    · subst h1
      obtain ⟨md, hmd, hmd1⟩ := hsq rfl
      subst hmd
      obtain ⟨s, hcs⟩ := computeScale_isOk (some m) (some md) ms "square" hz
      obtain ⟨hrh, hrw, -⟩ := square_scaled_le hh hw hmd1 hcs
      have hH : (resizedImage img s).hgt ≤ md := by
        rw [resizedImage_hgt]
        omega
      have hW : (resizedImage img s).wid ≤ md := by
        rw [resizedImage_wid]
        omega
      obtain ⟨o, ho⟩ := squareFinish_isOk s img.dtype hH hW
      constructor
      · rintro ⟨e, he⟩
        rw [resize_image_square_red ry rx hcs, ho] at he
        exact absurd he (by simp)
      · rintro (⟨-, hne, -⟩ | ⟨hpd, -⟩)
        · exact absurd rfl hne
        · exact absurd hpd (by decide)
    · by_cases h2 : mode = "pad64"
      · subst h2
        obtain ⟨s, hcs⟩ := computeScale_isOk (some m) maxd ms "pad64" hz
        by_cases h64 : m % 64 = 0
        · obtain ⟨o, ho⟩ := pad64Finish_isOk (resizedImage img s) s img.dtype h64
          constructor
          · rintro ⟨e, he⟩
            rw [resize_image_pad64_red ry rx hcs, ho] at he
            exact absurd he (by simp)
          · rintro (⟨-, -, hne, -⟩ | ⟨-, hm64⟩)
            · exact absurd rfl hne
            · exact absurd h64 hm64
        · obtain ⟨e, he⟩ := pad64Finish_isErr (resizedImage img s) s img.dtype h64
          constructor
          · intro _
            exact Or.inr ⟨rfl, h64⟩
          · intro _
            exact ⟨e, by rw [resize_image_pad64_red ry rx hcs, he]⟩
      · by_cases h3 : mode = "crop"
        · subst h3
          have hcs : computeScale img.hgt img.wid (some m) maxd ms "crop"
              = .ok (scale2 img.hgt img.wid (some m) ms) :=
            computeScale_nonsquare (by decide) hz
          have hbh := (crop_dims_lb img.hgt img.wid m (by omega) ms).1
          have hbw := (crop_dims_lb img.hgt img.wid m (by omega) ms).2
          have hmh : m ≤ (resizedImage img (scale2 img.hgt img.wid (some m) ms)).hgt := by
            rw [resizedImage_hgt]
            omega
          have hmw : m ≤ (resizedImage img (scale2 img.hgt img.wid (some m) ms)).wid := by
            rw [resizedImage_wid]
            omega
          obtain ⟨o, ho⟩ := cropFinish_isOk (scale2 img.hgt img.wid (some m) ms)
            img.dtype ry rx hmh hmw
          constructor
          · rintro ⟨e, he⟩
            rw [resize_image_crop_red ry rx hcs, ho] at he
            exact absurd he (by simp)
          · rintro (⟨-, -, -, hne⟩ | ⟨hpd, -⟩)
            · exact absurd rfl hne
            · exact absurd hpd (by decide)
        · obtain ⟨s, hcs⟩ := computeScale_isOk (some m) maxd ms mode hz
          constructor
          · intro _
            exact Or.inl ⟨h0, h1, h2, h3⟩
          · intro _
            exact ⟨_, resize_image_bad_mode ry rx h0 h1 h2 h3 hcs⟩

/-- Witness for C8 at an unsupported mode string. -/
theorem error_conditions_witness :
    (∃ e, resize_image ⟨10, 10, "uint8"⟩ (some 64) none none "bogus" 0 0 = .error e) ↔
      (("bogus" ≠ "none" ∧ "bogus" ≠ "square" ∧ "bogus" ≠ "pad64" ∧ "bogus" ≠ "crop")
       ∨ ("bogus" = "pad64" ∧ 64 % 64 ≠ 0)) :=
  error_conditions ⟨10, 10, "uint8"⟩ 64 none none "bogus" 0 0 (by decide) (by decide)
    (fun hcon => absurd hcon (by decide))
